import Mathlib

/-!
Verification of the retrieval and tool-dispatch core of the `chat-app-server`
repository (TypeScript).

Modelling conventions: JavaScript strings are `List Char`, JavaScript numbers
are real numbers (exact arithmetic; floating-point rounding and `NaN` are not
modelled), fallible calls return `Except`, and the external services
(embedding model, generative model, weather API, Zoom API) are explicit
environments supplying each outbound call's outcome.
-/

namespace ChatAppServer

/-! ## Chunker: `chunkText` (src/services.ts lines 54-60) -/

/-- Model of JavaScript `String.prototype.substring(a, b)`: negative
arguments are clamped to `0`, arguments above the length are clamped to the
length, and the two arguments are swapped when `a > b`. -/
def jsSubstring (s : List Char) (a b : Int) : List Char :=
  (s.take (max (min (max a 0) (s.length : Int)) (min (max b 0) (s.length : Int))).toNat).drop
    (min (min (max a 0) (s.length : Int)) (min (max b 0) (s.length : Int))).toNat

/-- Fuelled, line-by-line model of the loop
`for (let i = 0; i < text.length; i += chunkSize) chunks.push(text.substring(i, i + chunkSize))`
inside `chunkText`.  A `none` result means the loop has not exited within
`fuel` iterations. -/
def chunkTextLoop (s : List Char) (chunkSize : Int) :
    Nat → Int → List (List Char) → Option (List (List Char))
  | 0, _, _ => none
  | fuel + 1, i, acc =>
      if i < (s.length : Int) then
        chunkTextLoop s chunkSize fuel (i + chunkSize)
          (acc ++ [jsSubstring s i (i + chunkSize)])
      else
        some acc

/-- Recursive model of `chunkText` for positive chunk sizes; the theorem
`chunkTextLoop_eq_chunkText` proves it returns exactly what the source's loop
produces whenever `0 < chunkSize`.  (For `chunkSize ≤ 0` and non-empty text
the source's loop never exits, see `chunkTextLoop_none`; the `chunkSize = 0`
guard below is only there to make the recursion well-founded and is
unreachable under `0 < chunkSize`.) -/
def chunkText (text : List Char) (chunkSize : Nat) : List (List Char) :=
  if h : text = [] ∨ chunkSize = 0 then []
  else text.take chunkSize :: chunkText (text.drop chunkSize) chunkSize
termination_by text.length
decreasing_by
  push_neg at h
  have h1 : 0 < text.length := List.length_pos.mpr h.1
  have h2 : chunkSize ≠ 0 := h.2
  simp only [List.length_drop]
  omega

/-- Statement that the loop of `chunkText` runs forever from `i = 0` on the
given input: no amount of fuel makes it return. -/
def chunkTextDivergesAt (t : List Char) (cs : Int) : Prop :=
  ∀ (fuel : Nat) (acc : List (List Char)), chunkTextLoop t cs fuel 0 acc = none

lemma chunkText_nil (cs : Nat) : chunkText [] cs = [] := by
  rw [chunkText]
  exact dif_pos (Or.inl rfl)

lemma chunkText_pos (t : List Char) (cs : Nat) (ht : t ≠ []) (hcs : cs ≠ 0) :
    chunkText t cs = t.take cs :: chunkText (t.drop cs) cs := by
  rw [chunkText]
  exact dif_neg (by simp [ht, hcs])

lemma chunkText_join (cs : Nat) (hcs : 0 < cs) :
    ∀ t : List Char, (chunkText t cs).flatten = t := by
  have key : ∀ (n : Nat) (t : List Char), t.length ≤ n → (chunkText t cs).flatten = t := by
    intro n
    induction n with
    | zero =>
        intro t ht
        have h0 : t = [] := List.eq_nil_of_length_eq_zero (Nat.le_zero.mp ht)
        subst h0
        rw [chunkText_nil]
        rfl
    | succ n ih =>
        intro t ht
        by_cases h : t = []
        · subst h; rw [chunkText_nil]; rfl
        · rw [chunkText_pos t cs h (by omega)]
          have hd : (t.drop cs).length ≤ n := by
            have h1 : 0 < t.length := List.length_pos.mpr h
            simp only [List.length_drop]
            omega
          rw [List.flatten_cons, ih _ hd, List.take_append_drop]
  intro t
  exact key t.length t le_rfl

lemma chunkText_sizes (cs : Nat) (hcs : 0 < cs) :
    ∀ t : List Char, ∀ c ∈ (chunkText t cs).dropLast, c.length = cs := by
  have key : ∀ (n : Nat) (t : List Char), t.length ≤ n →
      ∀ c ∈ (chunkText t cs).dropLast, c.length = cs := by
    intro n
    induction n with
    | zero =>
        intro t ht c hc
        have h0 : t = [] := List.eq_nil_of_length_eq_zero (Nat.le_zero.mp ht)
        subst h0
        rw [chunkText_nil] at hc
        simp at hc
    | succ n ih =>
        intro t ht c hc
        by_cases h : t = []
        · subst h; rw [chunkText_nil] at hc; simp at hc
        · rw [chunkText_pos t cs h (by omega)] at hc
          rcases hrest : chunkText (t.drop cs) cs with _ | ⟨r, rs⟩
          · rw [hrest] at hc
            simp at hc
          · rw [hrest] at hc
            have hsplit : (t.take cs :: r :: rs).dropLast
                = t.take cs :: (r :: rs).dropLast := rfl
            rw [hsplit] at hc
            have hdrop_ne : t.drop cs ≠ [] := by
              intro hnil
              rw [hnil, chunkText_nil] at hrest
              exact List.noConfusion hrest
            have hlen : cs < t.length := by
              have h2 : 0 < (t.drop cs).length := List.length_pos.mpr hdrop_ne
              simp only [List.length_drop] at h2
              omega
            rcases List.mem_cons.mp hc with hc | hc
            · subst hc
              simp only [List.length_take]
              omega
            · have hd : (t.drop cs).length ≤ n := by
                simp only [List.length_drop]
                omega
              exact ih (t.drop cs) hd c (by rw [hrest]; exact hc)
  intro t
  exact key t.length t le_rfl

lemma take_drop_swap : ∀ (l : List Char) (i cs : Nat),
    (l.take (i + cs)).drop i = (l.drop i).take cs := by
  intro l
  induction l with
  | nil => intro i cs; simp
  | cons x xs ih =>
      intro i cs
      cases i with
      | zero => simp
      | succ i =>
          have hstep : (i + 1 + cs) = (i + cs) + 1 := by omega
          rw [hstep]
          simpa using ih i cs

lemma take_min (l : List Char) (m : Nat) : l.take (min m l.length) = l.take m := by
  rcases le_or_lt m l.length with h | h
  · rw [min_eq_left h]
  · rw [min_eq_right (le_of_lt h), List.take_length,
      List.take_of_length_le (le_of_lt h)]

lemma jsSubstring_take (t : List Char) (i cs : Nat) (hi : i ≤ t.length) :
    jsSubstring t (i : Int) ((i : Int) + (cs : Int)) = (t.drop i).take cs := by
  unfold jsSubstring
  have ha : max (i : Int) 0 = (i : Int) := max_eq_left (by positivity)
  have hb : max ((i : Int) + (cs : Int)) 0 = (i : Int) + (cs : Int) :=
    max_eq_left (by positivity)
  have hmono : min (i : Int) (t.length : Int)
      ≤ min ((i : Int) + (cs : Int)) (t.length : Int) :=
    min_le_min (by omega) le_rfl
  rw [ha, hb, min_eq_left hmono, max_eq_right hmono]
  have hia : min (i : Int) (t.length : Int) = ((i : Int)) := min_eq_left (by omega)
  rw [hia]
  have hcast : ((i : Int) + (cs : Int)) = ((i + cs : Nat) : Int) := by push_cast; ring
  rw [hcast]
  have h1 : (min ((i + cs : Nat) : Int) ((t.length : Nat) : Int))
      = (((min (i + cs) t.length : Nat)) : Int) := (Nat.cast_min (i + cs) t.length).symm
  rw [h1, Int.toNat_natCast, Int.toNat_natCast, take_min, take_drop_swap]

/-- Adequacy of the recursive model: on every input with a positive chunk
size, the source's loop exits (fuel `text.length + 1` suffices) and returns
exactly `chunkText text chunkSize`. -/
theorem chunkTextLoop_eq_chunkText (t : List Char) (cs : Nat) (hcs : 0 < cs) :
    chunkTextLoop t (cs : Int) (t.length + 1) 0 [] = some (chunkText t cs) := by
  have key : ∀ (fuel : Nat) (i : Nat) (acc : List (List Char)),
      t.length ≤ i + fuel * cs →
      chunkTextLoop t (cs : Int) (fuel + 1) (i : Int) acc
        = some (acc ++ chunkText (t.drop i) cs) := by
    intro fuel
    induction fuel with
    | zero =>
        intro i acc hle
        simp only [Nat.zero_mul, Nat.add_zero] at hle
        unfold chunkTextLoop
        rw [if_neg (by exact_mod_cast Nat.not_lt.mpr hle)]
        rw [List.drop_eq_nil_of_le hle, chunkText_nil, List.append_nil]
    | succ fuel ih =>
        intro i acc hle
        by_cases hi : i < t.length
        · unfold chunkTextLoop
          rw [if_pos (by exact_mod_cast hi)]
          rw [jsSubstring_take t i cs (le_of_lt hi)]
          have hicast : ((i : Int) + (cs : Int)) = ((i + cs : Nat) : Int) := by
            push_cast; ring
          rw [hicast]
          rw [Nat.succ_mul] at hle
          rw [ih (i + cs) _ (by omega)]
          have hdrop_ne : t.drop i ≠ [] := by
            intro hnil
            have := congrArg List.length hnil
            simp only [List.length_drop, List.length_nil] at this
            omega
          rw [chunkText_pos (t.drop i) cs hdrop_ne (by omega)]
          rw [List.drop_drop]
          simp
        · unfold chunkTextLoop
          rw [if_neg (by exact_mod_cast hi)]
          have hge : t.length ≤ i := Nat.not_lt.mp hi
          rw [List.drop_eq_nil_of_le hge, chunkText_nil, List.append_nil]
  have h0 : t.length ≤ 0 + t.length * cs := by
    have := Nat.le_mul_of_pos_right t.length hcs
    omega
  have := key t.length 0 [] h0
  simpa using this

lemma chunkTextLoop_none (t : List Char) (ht : t ≠ []) (cs : Int) (hcs : cs ≤ 0) :
    ∀ (fuel : Nat) (i : Int), i ≤ 0 → ∀ acc, chunkTextLoop t cs fuel i acc = none := by
  intro fuel
  induction fuel with
  | zero => intro i _ acc; rfl
  | succ fuel ih =>
      intro i hi acc
      unfold chunkTextLoop
      rw [if_pos]
      · exact ih (i + cs) (by omega) _
      · have hpos : 0 < t.length := List.length_pos.mpr ht
        omega

/-- Claim C1: for every text and every `chunkSize > 0`, concatenating the
chunks returned by `chunkText` in order reproduces the text exactly, and
every chunk except possibly the last has length exactly `chunkSize`. -/
theorem chunkText_spec (t : List Char) (cs : Nat) (hcs : 0 < cs) :
    (chunkText t cs).flatten = t ∧ ∀ c ∈ (chunkText t cs).dropLast, c.length = cs :=
  ⟨chunkText_join cs hcs t, chunkText_sizes cs hcs t⟩

/-- Witness for C1 at the concrete text "abcde" and chunk size 2. -/
theorem chunkText_spec_witness :
    0 < 2 ∧ ((chunkText ['a', 'b', 'c', 'd', 'e'] 2).flatten = ['a', 'b', 'c', 'd', 'e'] ∧
      ∀ c ∈ (chunkText ['a', 'b', 'c', 'd', 'e'] 2).dropLast, c.length = 2) :=
  ⟨by decide, chunkText_spec ['a', 'b', 'c', 'd', 'e'] 2 (by decide)⟩

/-- Claim C7 counterexample: with `chunkSize = 0` and the non-empty text
"a", the loop of `chunkText` never exits, so the call neither returns nor
fails with an `InvalidConfiguration` error (no such error exists anywhere in
the code). -/
theorem chunkText_invalid_config_counterexample : chunkTextDivergesAt ['a'] 0 :=
  fun fuel acc =>
    chunkTextLoop_none ['a'] (by decide) 0 le_rfl fuel 0 le_rfl acc

/-- Claim C7 (amended): `chunkText` applied to the empty string yields zero
chunks for every `chunkSize` (both in the recursive model and in the source's
loop); and for every `chunkSize ≤ 0` applied to non-empty text the source's
loop never exits, so the call diverges instead of failing with an
`InvalidConfiguration` error. -/
theorem chunkText_edge_spec :
    (∀ cs : Nat, chunkText [] cs = []) ∧
    (∀ (cs : Int) (fuel : Nat), chunkTextLoop [] cs (fuel + 1) 0 [] = some []) ∧
    (∀ cs : Int, cs ≤ 0 → ∀ t : List Char, t ≠ [] → chunkTextDivergesAt t cs) :=
  ⟨chunkText_nil,
   fun _ _ => rfl,
   fun cs hcs t ht fuel acc => chunkTextLoop_none t ht cs hcs fuel 0 le_rfl acc⟩

/-- Witness for C7 (amended) at chunk size 3 on the empty string and at chunk
size -1 on the non-empty string "a". -/
theorem chunkText_edge_spec_witness :
    chunkText [] 3 = [] ∧ ((-1 : Int) ≤ 0 ∧ (['a'] : List Char) ≠ []) ∧
      chunkTextDivergesAt ['a'] (-1) :=
  ⟨chunkText_edge_spec.1 3, ⟨by decide, by decide⟩,
   chunkText_edge_spec.2.2 (-1) (by decide) ['a'] (by decide)⟩

/-! ## Similarity ranker: `cosineSimilarity` (src/services.ts lines 68-76) -/

/-- Model of `vecA.reduce((sum, a, i) => sum + a * vecB[i], 0)`.  The zip
pairs each coordinate of `vecA` with the same-indexed coordinate of `vecB`;
the model is faithful for vectors of equal length (on mismatched lengths the
source produces `NaN`, which exact real arithmetic does not represent). -/
noncomputable def dotProduct (vecA vecB : List ℝ) : ℝ :=
  (vecA.zip vecB).foldl (fun sum p => sum + p.1 * p.2) 0

/-- Model of `vec.reduce((sum, a) => sum + a * a, 0)`, the sum of squares
under a magnitude computation. -/
noncomputable def sumSq (v : List ℝ) : ℝ :=
  v.foldl (fun sum a => sum + a * a) 0

/-- Model of `Math.sqrt(vec.reduce((sum, a) => sum + a * a, 0))`. -/
noncomputable def magnitude (v : List ℝ) : ℝ :=
  Real.sqrt (sumSq v)

/-- Model of `cosineSimilarity` (src/services.ts lines 68-76): returns `0`
when either magnitude is zero, and the normalized dot product otherwise. -/
noncomputable def cosineSimilarity (vecA vecB : List ℝ) : ℝ :=
  if magnitude vecA = 0 ∨ magnitude vecB = 0 then 0
  else dotProduct vecA vecB / (magnitude vecA * magnitude vecB)

lemma foldl_add_map {α : Type} (f : α → ℝ) :
    ∀ (l : List α) (s : ℝ), l.foldl (fun a x => a + f x) s = s + (l.map f).sum := by
  intro l
  induction l with
  | nil => intro s; simp
  | cons x xs ih =>
      intro s
      rw [List.foldl_cons, ih (s + f x), List.map_cons, List.sum_cons]
      ring

lemma sumSq_eq (v : List ℝ) : sumSq v = (v.map (fun a => a * a)).sum := by
  simpa using foldl_add_map (fun a => a * a) v 0

lemma dotProduct_eq (a b : List ℝ) :
    dotProduct a b = ((a.zip b).map (fun p => p.1 * p.2)).sum := by
  simpa using foldl_add_map (fun p : ℝ × ℝ => p.1 * p.2) (a.zip b) 0

lemma sumSq_cons (x : ℝ) (v : List ℝ) : sumSq (x :: v) = x * x + sumSq v := by
  rw [sumSq_eq, sumSq_eq, List.map_cons, List.sum_cons]

lemma dotProduct_cons (x y : ℝ) (a b : List ℝ) :
    dotProduct (x :: a) (y :: b) = x * y + dotProduct a b := by
  rw [dotProduct_eq, dotProduct_eq, List.zip_cons_cons, List.map_cons, List.sum_cons]

lemma dotProduct_nil_right (a : List ℝ) : dotProduct a [] = 0 := by
  cases a <;> rfl

lemma sumSq_nonneg (v : List ℝ) : 0 ≤ sumSq v := by
  rw [sumSq_eq]
  exact List.sum_nonneg (fun x hx => by
    obtain ⟨a, _, rfl⟩ := List.mem_map.mp hx
    exact mul_self_nonneg a)

lemma sumSq_pos (v : List ℝ) (x : ℝ) (hx : x ∈ v) (hx0 : x ≠ 0) : 0 < sumSq v := by
  induction v with
  | nil => simp at hx
  | cons y ys ih =>
      rw [sumSq_cons]
      rcases List.mem_cons.mp hx with rfl | hx
      · exact add_pos_of_pos_of_nonneg (mul_self_pos.mpr hx0) (sumSq_nonneg ys)
      · exact add_pos_of_nonneg_of_pos (mul_self_nonneg y) (ih hx)

lemma dotProduct_self (v : List ℝ) : dotProduct v v = sumSq v := by
  induction v with
  | nil => rfl
  | cons x xs ih => rw [dotProduct_cons, sumSq_cons, ih]

lemma dotProduct_comm : ∀ (a b : List ℝ), dotProduct a b = dotProduct b a := by
  intro a
  induction a with
  | nil => intro b; rw [dotProduct_nil_right]; rfl
  | cons x xs ih =>
      intro b
      cases b with
      | nil => rw [dotProduct_nil_right]; rfl
      | cons y ys => rw [dotProduct_cons, dotProduct_cons, ih ys, mul_comm]

lemma magnitude_zero_of_all_zero (v : List ℝ) (h : ∀ x ∈ v, x = 0) :
    magnitude v = 0 := by
  unfold magnitude
  have hs : sumSq v = 0 := by
    rw [sumSq_eq]
    exact List.sum_eq_zero (fun x hx => by
      obtain ⟨a, ha, rfl⟩ := List.mem_map.mp hx
      rw [h a ha, mul_zero])
  rw [hs, Real.sqrt_zero]

/-- Claim C3: `cosineSimilarity` returns exactly `0` whenever one argument is
the zero vector, and more generally whenever either magnitude is zero; and
for every non-zero vector `v` it satisfies `cosineSimilarity v v = 1` under
exact real arithmetic. -/
theorem cosineSimilarity_spec :
    (∀ v w : List ℝ, (∀ x ∈ v, x = 0) →
      cosineSimilarity v w = 0 ∧ cosineSimilarity w v = 0) ∧
    (∀ a b : List ℝ, magnitude a = 0 ∨ magnitude b = 0 → cosineSimilarity a b = 0) ∧
    (∀ v : List ℝ, (∃ x ∈ v, x ≠ 0) → cosineSimilarity v v = 1) := by
  have hzero : ∀ a b : List ℝ, magnitude a = 0 ∨ magnitude b = 0 →
      cosineSimilarity a b = 0 := by
    intro a b h
    unfold cosineSimilarity
    rw [if_pos h]
  refine ⟨?_, hzero, ?_⟩
  · intro v w h
    exact ⟨hzero v w (Or.inl (magnitude_zero_of_all_zero v h)),
           hzero w v (Or.inr (magnitude_zero_of_all_zero v h))⟩
  · intro v hv
    obtain ⟨x, hx, hx0⟩ := hv
    have hpos : 0 < sumSq v := sumSq_pos v x hx hx0
    have hmag : magnitude v ≠ 0 :=
      ne_of_gt (Real.sqrt_pos.mpr hpos)
    unfold cosineSimilarity
    rw [if_neg (by simp [hmag])]
    rw [dotProduct_self]
    unfold magnitude
    rw [Real.mul_self_sqrt (sumSq_nonneg v)]
    exact div_self (ne_of_gt hpos)

/-- Witness for C3 at the zero vector `[0]` (against `[1]`) and at the
non-zero vector `[1]`. -/
theorem cosineSimilarity_spec_witness :
    ((∀ x ∈ [(0 : ℝ)], x = 0) ∧ cosineSimilarity [(0 : ℝ)] [(1 : ℝ)] = 0) ∧
    ((∃ x ∈ [(1 : ℝ)], x ≠ 0) ∧ cosineSimilarity [(1 : ℝ)] [(1 : ℝ)] = 1) :=
  ⟨⟨by simp, (cosineSimilarity_spec.1 [(0 : ℝ)] [(1 : ℝ)] (by simp)).1⟩,
   ⟨⟨1, by simp, one_ne_zero⟩,
    cosineSimilarity_spec.2.2 [(1 : ℝ)] ⟨1, by simp, one_ne_zero⟩⟩⟩

/-- Claim C10: `cosineSimilarity` is symmetric on vectors of equal length. -/
theorem cosineSimilarity_symm (a b : List ℝ) (hlen : a.length = b.length) :
    cosineSimilarity a b = cosineSimilarity b a := by
  unfold cosineSimilarity
  by_cases h1 : magnitude a = 0 <;> by_cases h2 : magnitude b = 0 <;>
    simp [h1, h2, dotProduct_comm a b, mul_comm]

/-- Witness for C10 at the concrete vectors `[1, 2]` and `[3, 4]`. -/
theorem cosineSimilarity_symm_witness :
    ([(1 : ℝ), 2]).length = ([(3 : ℝ), 4]).length ∧
      cosineSimilarity [(1 : ℝ), 2] [(3 : ℝ), 4]
        = cosineSimilarity [(3 : ℝ), 4] [(1 : ℝ), 2] :=
  ⟨by simp, cosineSimilarity_symm [(1 : ℝ), 2] [(3 : ℝ), 4] (by simp)⟩

/-! ## In-process vector store and retrieval (src/services.ts lines 38-44 and
150-158) -/

/-- Model of the `Vector` records held in `vectorStore` (src/services.ts
lines 38-44); the `embedding: any` field is in practice a number array. -/
structure Vector where
  id : String
  embedding : List ℝ
  text : String
  documentId : String

/-- Model of the scored copies `{...vector, similarity}` built by the `map`
step of `handleChat`; the original entry is kept whole in `vector`. -/
structure Scored where
  vector : Vector
  similarity : ℝ

/-- Insertion step of a stable descending sort by `similarity`: the new
element goes in front of the first element whose similarity is not larger.
This models `sort((a, b) => b.similarity - a.similarity)`, which ECMAScript
2019 requires to be a stable sort, so its output on a consistent comparator
is exactly the stable descending reordering computed here. -/
noncomputable def insertDesc (x : Scored) : List Scored → List Scored
  | [] => [x]
  | y :: ys => if y.similarity ≤ x.similarity then x :: y :: ys else y :: insertDesc x ys

/-- Stable descending sort by `similarity`; see `insertDesc`. -/
noncomputable def sortDesc : List Scored → List Scored
  | [] => []
  | x :: xs => insertDesc x (sortDesc xs)

/-- Model of the `map` step of the retrieval in `handleChat`: every store
entry is copied and paired with its cosine similarity against the query
embedding, in store order. -/
noncomputable def scoredStore (queryEmbedding : List ℝ) (store : List Vector) : List Scored :=
  store.map (fun v => ⟨v, cosineSimilarity queryEmbedding v.embedding⟩)

/-- Model of the retrieval step of `handleChat` (src/services.ts lines
150-156): score every entry, sort descending by similarity, keep the first
five (`slice(0, 5)`). -/
noncomputable def inProcessQuery (queryEmbedding : List ℝ) (store : List Vector) : List Scored :=
  (sortDesc (scoredStore queryEmbedding store)).take 5

lemma insertDesc_perm (x : Scored) : ∀ l : List Scored, List.Perm (insertDesc x l) (x :: l) := by
  intro l
  induction l with
  | nil => exact List.Perm.refl _
  | cons y ys ih =>
      simp only [insertDesc]
      split
      · exact List.Perm.refl _
      · exact (List.Perm.cons y ih).trans (List.Perm.swap x y ys)

lemma sortDesc_perm : ∀ l : List Scored, List.Perm (sortDesc l) l := by
  intro l
  induction l with
  | nil => exact List.Perm.refl _
  | cons x xs ih =>
      exact (insertDesc_perm x (sortDesc xs)).trans (List.Perm.cons x ih)

lemma mem_insertDesc {z x : Scored} {l : List Scored} :
    z ∈ insertDesc x l ↔ z = x ∨ z ∈ l :=
  (insertDesc_perm x l).mem_iff.trans List.mem_cons

lemma pairwise_insertDesc (x : Scored) :
    ∀ l : List Scored, l.Pairwise (fun a b => b.similarity ≤ a.similarity) →
      (insertDesc x l).Pairwise (fun a b => b.similarity ≤ a.similarity) := by
  intro l
  induction l with
  | nil => intro _; simp [insertDesc]
  | cons y ys ih =>
      intro h
      obtain ⟨hy, hys⟩ := List.pairwise_cons.mp h
      simp only [insertDesc]
      by_cases h1 : y.similarity ≤ x.similarity
      · rw [if_pos h1]
        refine List.pairwise_cons.mpr ⟨?_, h⟩
        intro z hz
        rcases List.mem_cons.mp hz with rfl | hz
        · exact h1
        · exact le_trans (hy z hz) h1
      · rw [if_neg h1]
        refine List.pairwise_cons.mpr ⟨?_, ih hys⟩
        intro z hz
        rcases mem_insertDesc.mp hz with rfl | hz
        · exact le_of_lt (not_le.mp h1)
        · exact hy z hz

lemma sortDesc_sorted :
    ∀ l : List Scored, (sortDesc l).Pairwise (fun a b => b.similarity ≤ a.similarity) := by
  intro l
  induction l with
  | nil => simp [sortDesc]
  | cons x xs ih => exact pairwise_insertDesc x (sortDesc xs) ih

lemma insertDesc_split (x : Scored) :
    ∀ l : List Scored, ∃ l₁ l₂, l = l₁ ++ l₂ ∧
      insertDesc x l = l₁ ++ x :: l₂ ∧ ∀ y ∈ l₁, x.similarity < y.similarity := by
  intro l
  induction l with
  | nil => exact ⟨[], [], rfl, rfl, by simp⟩
  | cons y ys ih =>
      by_cases h1 : y.similarity ≤ x.similarity
      · exact ⟨[], y :: ys, rfl, by simp [insertDesc, h1], by simp⟩
      · obtain ⟨l₁, l₂, he, hi, hy⟩ := ih
        refine ⟨y :: l₁, l₂, by rw [List.cons_append, ← he], ?_, ?_⟩
        · simp only [insertDesc]
          rw [if_neg h1, hi, List.cons_append]
        · intro z hz
          rcases List.mem_cons.mp hz with rfl | hz
          · exact not_le.mp h1
          · exact hy z hz

lemma filter_insertDesc (p : Scored → Bool) (x : Scored) (l : List Scored)
    (h : ∀ y ∈ l, p x = true → p y = true → y.similarity ≤ x.similarity) :
    (insertDesc x l).filter p = if p x then x :: l.filter p else l.filter p := by
  obtain ⟨l₁, l₂, rfl, hi, hy⟩ := insertDesc_split x l
  rw [hi]
  by_cases hp : p x = true
  · have h1 : l₁.filter p = [] := List.filter_eq_nil_iff.mpr
      (fun y hyl hpy =>
        absurd (h y (List.mem_append_left _ hyl) hp hpy) (not_le.mpr (hy y hyl)))
    simp [List.filter_append, List.filter_cons, hp, h1]
  · simp [List.filter_append, List.filter_cons, hp]

lemma filter_sortDesc (p : Scored → Bool) :
    ∀ l : List Scored,
      (∀ a ∈ l, ∀ b ∈ l, p a = true → p b = true → a.similarity = b.similarity) →
      (sortDesc l).filter p = l.filter p := by
  intro l
  induction l with
  | nil => intro _; rfl
  | cons x xs ih =>
      intro h
      simp only [sortDesc]
      rw [filter_insertDesc p x (sortDesc xs)
        (by
          intro y hyl hpx hpy
          exact le_of_eq (h y (List.mem_cons_of_mem _ ((sortDesc_perm xs).mem_iff.mp hyl))
            x (List.mem_cons_self _ _) hpy hpx))]
      rw [ih (fun a ha b hb hpa hpb =>
        h a (List.mem_cons_of_mem _ ha) b (List.mem_cons_of_mem _ hb) hpa hpb)]
      by_cases hp : p x = true <;> simp [List.filter_cons, hp]

/-- Claim C2: the retrieval step of `handleChat` returns at most five
matches, every returned match is a scored copy of an entry present in the
store, and the matches are ordered by descending similarity score. -/
theorem inProcessQuery_spec (queryEmbedding : List ℝ) (store : List Vector) :
    (inProcessQuery queryEmbedding store).length ≤ 5 ∧
    (∀ m ∈ inProcessQuery queryEmbedding store, m.vector ∈ store) ∧
    (inProcessQuery queryEmbedding store).Pairwise
      (fun a b => b.similarity ≤ a.similarity) := by
  refine ⟨?_, ?_, ?_⟩
  · unfold inProcessQuery
    rw [List.length_take]
    exact min_le_left _ _
  · intro m hm
    unfold inProcessQuery at hm
    have h1 : m ∈ sortDesc (scoredStore queryEmbedding store) :=
      (List.take_sublist 5 _).subset hm
    have h2 : m ∈ scoredStore queryEmbedding store :=
      (sortDesc_perm _).mem_iff.mp h1
    unfold scoredStore at h2
    obtain ⟨v, hv, rfl⟩ := List.mem_map.mp h2
    exact hv
  · exact List.Pairwise.sublist (List.take_sublist 5 _) (sortDesc_sorted _)

/-- Claim C8: the top-k selection is stable.  For any Boolean test `p` that
only selects entries of one common similarity score (a tied group), the
selected entries of the returned top five form a sublist of the selected
entries of the scored store, which is in store insertion order — so tied
entries keep their relative insertion order in the output. -/
theorem topK_stable (queryEmbedding : List ℝ) (store : List Vector) (p : Scored → Bool)
    (h : ∀ a ∈ scoredStore queryEmbedding store, ∀ b ∈ scoredStore queryEmbedding store,
      p a = true → p b = true → a.similarity = b.similarity) :
    List.Sublist ((inProcessQuery queryEmbedding store).filter p)
      ((scoredStore queryEmbedding store).filter p) := by
  unfold inProcessQuery
  have h1 := (List.take_sublist 5 (sortDesc (scoredStore queryEmbedding store))).filter p
  rw [filter_sortDesc p _ h] at h1
  exact h1

/-- Concrete store entry used by the C8 witness. -/
def vOne : Vector := ⟨"id1", [1], "a", "doc"⟩

/-- Concrete store entry used by the C8 witness. -/
def vTwo : Vector := ⟨"id2", [1], "b", "doc"⟩

/-- Witness for C8 at a two-entry store whose entries are tied (identical
embeddings), with the test selecting everything. -/
theorem topK_stable_witness :
    (∀ a ∈ scoredStore [(1 : ℝ)] [vOne, vTwo], ∀ b ∈ scoredStore [(1 : ℝ)] [vOne, vTwo],
      (fun _ : Scored => true) a = true → (fun _ : Scored => true) b = true →
      a.similarity = b.similarity) ∧
    List.Sublist ((inProcessQuery [(1 : ℝ)] [vOne, vTwo]).filter (fun _ : Scored => true))
      ((scoredStore [(1 : ℝ)] [vOne, vTwo]).filter (fun _ : Scored => true)) := by
  have hp : ∀ a ∈ scoredStore [(1 : ℝ)] [vOne, vTwo],
      ∀ b ∈ scoredStore [(1 : ℝ)] [vOne, vTwo],
      (fun _ : Scored => true) a = true → (fun _ : Scored => true) b = true →
      a.similarity = b.similarity := by
    intro a ha b hb _ _
    simp only [scoredStore, List.map_cons, List.map_nil, List.mem_cons,
      List.not_mem_nil, or_false] at ha hb
    rcases ha with rfl | rfl <;> rcases hb with rfl | rfl <;> simp [vOne, vTwo]
  exact ⟨hp, topK_stable [(1 : ℝ)] [vOne, vTwo] (fun _ : Scored => true) hp⟩

/-! ## Store mutation discipline (src/services.ts lines 110-116 and 150-158) -/

/-- Mutating operations the service layer can issue against the global
`vectorStore`; the only one in the source is `vectorStore.push(vector)`. -/
inductive StoreOp where
  | push (v : Vector)

/-- Application of a trace of store operations to a store state. -/
def applyOps (store : List Vector) (ops : List StoreOp) : List Vector :=
  ops.foldl (fun s op => match op with | .push v => s ++ [v]) store

/-- Outcome of the pure part of `handleChat`: the retrieved matches, the
context string, the assembled prompt, and the trace of store mutations the
function issues (none — the `map` builds fresh scored copies and `sort` and
`slice` act on that fresh array, never on `vectorStore`). -/
structure ChatOutcome where
  similarDocs : List Scored
  context : String
  prompt : String
  storeOps : List StoreOp

/-- Model of `handleChat` (src/services.ts lines 134-186) after the query
embedding has been obtained: retrieval over the in-process store, context
joining with the chunk separator, and prompt assembly.  The generation call
itself is an opaque external service and does not touch the store. -/
noncomputable def handleChat (queryEmbedding : List ℝ) (store : List Vector)
    (query : String) : ChatOutcome :=
  let similarDocs := inProcessQuery queryEmbedding store
  let context := String.intercalate "\n\n---\n\n" (similarDocs.map (fun doc => doc.vector.text))
  { similarDocs := similarDocs
    context := context
    prompt := "\n        Based on the following context, please answer the user's question.\n        If the context does not contain the answer, say that you don't have enough information.\n\n        CONTEXT:\n        " ++ context ++ "\n\n        QUESTION:\n        " ++ query ++ "\n    "
    storeOps := [] }

/-- Vectors created by the upload loop of `handleFileUpload` (src/services.ts
lines 98-118): one per chunk, in chunk order.  `embed` stands for the
external embedding call and `mkId` for the uuid supply. -/
def handleFileUploadVectors (chunks : List (List Char)) (documentId : String)
    (embed : List Char → List ℝ) (mkId : Nat → String) : List Vector :=
  chunks.enum.map (fun pair => ⟨mkId pair.1, embed pair.2, String.mk pair.2, documentId⟩)

/-- Store-operation trace of `handleFileUpload`: one `push` per chunk of the
uploaded document, in chunk order (the source's default chunk size is 1000). -/
def handleFileUploadOps (docText : List Char) (documentId : String)
    (embed : List Char → List ℝ) (mkId : Nat → String) : List StoreOp :=
  (chunkText docText 1000).enum.map
    (fun pair => StoreOp.push ⟨mkId pair.1, embed pair.2, String.mk pair.2, documentId⟩)

lemma applyOps_map_push (l : List Vector) :
    ∀ store : List Vector, applyOps store (l.map StoreOp.push) = store ++ l := by
  induction l with
  | nil => intro store; simp [applyOps]
  | cons x xs ih =>
      intro store
      show applyOps (store ++ [x]) (xs.map StoreOp.push) = store ++ x :: xs
      rw [ih (store ++ [x])]
      simp

lemma handleFileUploadOps_eq (docText : List Char) (documentId : String)
    (embed : List Char → List ℝ) (mkId : Nat → String) :
    handleFileUploadOps docText documentId embed mkId
      = (handleFileUploadVectors (chunkText docText 1000) documentId embed mkId).map
          StoreOp.push := by
  unfold handleFileUploadOps handleFileUploadVectors
  rw [List.map_map]
  rfl

/-- Claim C9: `handleChat` never mutates the in-process vector store — its
trace of store operations is empty, so the store after the call equals the
store before it; only `handleFileUpload` mutates the store, and it does so by
appending one entry per chunk. -/
theorem handleChat_frame (queryEmbedding : List ℝ) (store : List Vector) (query : String) :
    applyOps store (handleChat queryEmbedding store query).storeOps = store ∧
    ∀ (docText : List Char) (documentId : String)
      (embed : List Char → List ℝ) (mkId : Nat → String),
      applyOps store (handleFileUploadOps docText documentId embed mkId)
        = store ++ handleFileUploadVectors (chunkText docText 1000) documentId embed mkId := by
  constructor
  · rfl
  · intro docText documentId embed mkId
    rw [handleFileUploadOps_eq, applyOps_map_push]

/-! ## Tool declarations (src/constants/tools.ts) and the tool-dispatch loop
of `handleGenerate` (Pinecone service variant, lines 212-330), with `getToken`
(src/utils/token.ts) -/

/-- Opaque JavaScript runtime error (a rejected promise or thrown exception). -/
inductive JsError where
  | network (tag : String)
deriving DecidableEq

/-- Opaque JSON payload returned by an external service. -/
inductive JsValue where
  | obj (tag : String)
  | str (s : String)
deriving DecidableEq

/-- Fields of `functionCall.args` read by the dispatch branches (`location`
for the weather tool; `topic`, `start_time`, `meeting_invitees` for the Zoom
tool). -/
structure FnArgs where
  location : String := ""
  topic : String := ""
  start_time : String := ""
  meeting_invitees : List String := []
deriving DecidableEq

/-- One tool invocation requested by the generative model. -/
structure FunctionCall where
  name : String
  args : FnArgs
deriving DecidableEq

/-- One element of a conversation turn's `parts` array: either text or a
`functionResponse` (whose `response: { result: res }` wrapper is collapsed
into the payload). -/
inductive Part where
  | text (s : String)
  | functionResponse (name : String) (response : JsValue)
deriving DecidableEq

/-- One conversation turn: an optional role tag and a list of parts. -/
structure Content where
  role : Option String
  parts : List Part
deriving DecidableEq

/-- JSON body of a successful Zoom OAuth token response; a missing field is
`none` (JavaScript `undefined`). -/
structure TokenJson where
  access_token : Option String
  expires_in : Option Nat
deriving DecidableEq

/-- Return value of `getToken`: `{ access_token, expires_in, error }`. -/
structure TokenResult where
  access_token : Option String
  expires_in : Option Nat
  error : Option JsError
deriving DecidableEq

/-- Environment giving the outcome of each outbound call a tool handler can
make: the weather HTTP fetch (by location), the Zoom OAuth token fetch, the
Zoom meeting-creation fetch (by bearer token and arguments), and the
recursive `handleChat` retrieval call (by query and history).  An `error`
outcome models a rejected promise, i.e. a thrown exception at the `await`. -/
structure ToolEnv where
  weatherFetch : String → Except JsError JsValue
  tokenFetch : Except JsError TokenJson
  meetingFetch : Option String → FnArgs → Except JsError JsValue
  ragChat : String → List Content → Except JsError String

/-- Model of `getToken` (src/utils/token.ts lines 12-34).  On a rejected
fetch the inner `.catch` turns the awaited value into `undefined`, the
destructuring of `undefined` then throws, and the surrounding try/catch
captures that error — so `getToken` itself never throws: a failure is
reported through the `error` field with null token fields. -/
def getToken (env : ToolEnv) : TokenResult :=
  match env.tokenFetch with
  | .error e => { access_token := none, expires_in := none, error := some e }
  | .ok j => { access_token := j.access_token, expires_in := j.expires_in, error := none }

/-- Name of the weather tool declared to the model (src/constants/tools.ts
line 5). -/
def weatherFunctionDeclarationName : String := "get_current_temperature"

/-- Name of the Zoom tool declared to the model (src/constants/tools.ts
line 21). -/
def zoomFunctionDeclarationName : String := "create_zoom_meeting"

/-- Name of the RAG tool declared to the model (src/constants/tools.ts
line 54, `ragFunctionDeclaration`). -/
def ragFunctionDeclarationName : String := "rag_intro_llm_prompt_engineering"

/-- Tool names the dispatch loop of `handleGenerate` actually has branches
for (lines 243, 258 and 288 of the Pinecone service variant). -/
def handledToolNames : List String :=
  ["get_current_temperature", "create_zoom_meeting",
   "rag_university_of_baguio_student_handbook"]

/-- Model of the `for (const functionCall of chatModel.functionCalls)`
dispatch loop of `handleGenerate`: each handled name awaits its external call
and pushes exactly one `functionResponse` part; a name matching no branch
pushes nothing; a rejected awaited call has no surrounding try/catch, so it
propagates and aborts the whole loop (the `error` outcome). -/
def dispatchCalls (env : ToolEnv) (query : String) (history : List Content) :
    List FunctionCall → Except JsError (List Part)
  | [] => .ok []
  | fc :: rest =>
      if fc.name = "get_current_temperature" then
        match env.weatherFetch fc.args.location with
        | .error e => .error e
        | .ok res =>
            match dispatchCalls env query history rest with
            | .error e => .error e
            | .ok tail => .ok (Part.functionResponse fc.name res :: tail)
      else if fc.name = "create_zoom_meeting" then
        match env.meetingFetch (getToken env).access_token fc.args with
        | .error e => .error e
        | .ok res =>
            match dispatchCalls env query history rest with
            | .error e => .error e
            | .ok tail => .ok (Part.functionResponse fc.name res :: tail)
      else if fc.name = "rag_university_of_baguio_student_handbook" then
        match env.ragChat query history with
        | .error e => .error e
        | .ok res =>
            match dispatchCalls env query history rest with
            | .error e => .error e
            | .ok tail => .ok (Part.functionResponse fc.name (JsValue.str res) :: tail)
      else
        dispatchCalls env query history rest

/-- Response of one `generateContent` call: the requested tool invocations
(empty when absent) and the text field. -/
structure GenResponse where
  functionCalls : List FunctionCall
  text : String

/-- Environment for `handleGenerate`: the generative model as a function from
the submitted conversation contents to its response, plus the tool
environment. -/
structure GenEnv where
  respond : List Content → GenResponse
  tools : ToolEnv

/-- The new user turn `{ parts: [{ text: query }], role: "user" }`. -/
def userTurn (query : String) : Content :=
  { role := some "user", parts := [Part.text query] }

/-- Observable outcome of one `handleGenerate` request: the contents of every
`generateContent` call made, in order, and the returned text (or the
uncaught error). -/
structure GenTrace where
  calls : List (List Content)
  result : Except JsError String

/-- Model of `handleGenerate` (Pinecone service variant, lines 212-330):
one initial generation call over `history` plus the new user turn; if the
response requests tool invocations, dispatch them, append all results as one
role-less turn, make exactly one follow-up generation call and return its
text field — without inspecting the follow-up's own `functionCalls`. -/
def handleGenerate (env : GenEnv) (query : String) (history : List Content) : GenTrace :=
  let contents1 := history ++ [userTurn query]
  let r1 := env.respond contents1
  if r1.functionCalls.length > 0 then
    match dispatchCalls env.tools query history r1.functionCalls with
    | .error e => { calls := [contents1], result := .error e }
    | .ok results =>
        let contents2 := history ++ [userTurn query, { role := none, parts := results }]
        { calls := [contents1, contents2], result := .ok (env.respond contents2).text }
  else
    { calls := [contents1], result := .ok r1.text }

/-- Claim C4: contrary to the claim, a requested invocation whose name is the
declared RAG tool name `rag_intro_llm_prompt_engineering` matches none of the
dispatcher's branches (which handle `rag_university_of_baguio_student_handbook`
instead) and is silently dropped: the round produces zero tool results for
it, not exactly one. -/
theorem dispatch_drops_declared_rag_tool (env : ToolEnv) (query : String)
    (history : List Content) (args : FnArgs) :
    ragFunctionDeclarationName ∉ handledToolNames ∧
    dispatchCalls env query history [{ name := ragFunctionDeclarationName, args := args }]
      = .ok [] := by
  constructor
  · decide
  · simp [dispatchCalls, ragFunctionDeclarationName]

/-- Claim C5: whenever the initial generation call requests tool invocations
and their dispatch succeeds, all tool results are appended as one single
role-less turn, exactly one follow-up generation call is issued (two calls in
total), and the returned text is the follow-up response's text regardless of
whether that follow-up response itself requests tools. -/
theorem handleGenerate_single_round (env : GenEnv) (query : String)
    (history : List Content) (results : List Part)
    (h1 : (env.respond (history ++ [userTurn query])).functionCalls ≠ [])
    (h2 : dispatchCalls env.tools query history
      (env.respond (history ++ [userTurn query])).functionCalls = .ok results) :
    handleGenerate env query history =
      { calls := [history ++ [userTurn query],
                  history ++ [userTurn query, { role := none, parts := results }]],
        result := .ok (env.respond
          (history ++ [userTurn query, { role := none, parts := results }])).text } := by
  have hpos : 0 < (env.respond (history ++ [userTurn query])).functionCalls.length :=
    List.length_pos.mpr h1
  simp only [handleGenerate]
  rw [if_pos hpos, h2]

/-- Concrete tool environment in which every external call succeeds. -/
def toolEnvAllOk : ToolEnv :=
  { weatherFetch := fun _ => .ok (JsValue.obj "weather-result")
    tokenFetch := .ok { access_token := some "tok", expires_in := some 3600 }
    meetingFetch := fun _ _ => .ok (JsValue.obj "meeting-result")
    ragChat := fun _ _ => .ok "rag-result" }

/-- Concrete generation environment whose every response (initial and
follow-up alike) requests the weather tool, exercising the single-round
policy. -/
def genEnvW : GenEnv :=
  { respond := fun _ =>
      { functionCalls := [{ name := "get_current_temperature",
                            args := { location := "Manila" } }],
        text := "final" }
    tools := toolEnvAllOk }

/-- Witness for C5 in an environment whose follow-up response also requests
tools: the request still ends after the single follow-up call. -/
theorem handleGenerate_single_round_witness :
    ((genEnvW.respond ([] ++ [userTurn "q"])).functionCalls ≠ [] ∧
      dispatchCalls genEnvW.tools "q" []
        (genEnvW.respond ([] ++ [userTurn "q"])).functionCalls
        = .ok [Part.functionResponse "get_current_temperature" (JsValue.obj "weather-result")]) ∧
    handleGenerate genEnvW "q" [] =
      { calls := [[userTurn "q"],
                  [userTurn "q",
                   { role := none,
                     parts := [Part.functionResponse "get_current_temperature"
                       (JsValue.obj "weather-result")] }]],
        result := .ok "final" } := by
  refine ⟨⟨by simp [genEnvW], rfl⟩, ?_⟩
  have h := handleGenerate_single_round genEnvW "q" []
    [Part.functionResponse "get_current_temperature" (JsValue.obj "weather-result")]
    (by simp [genEnvW]) rfl
  simpa [genEnvW] using h

/-- Concrete tool environment whose weather fetch rejects. -/
def toolEnvWeatherFail : ToolEnv :=
  { weatherFetch := fun _ => .error (JsError.network "weather down")
    tokenFetch := .ok { access_token := some "tok", expires_in := some 3600 }
    meetingFetch := fun _ _ => .ok (JsValue.obj "meeting-result")
    ragChat := fun _ _ => .ok "rag-result" }

/-- Claim C6 counterexample: with two requested invocations (weather then
Zoom) and a rejected weather fetch, the whole dispatch aborts with the
uncaught error: no structured error payload is produced for the failing
invocation, and the Zoom invocation never yields a result. -/
theorem dispatch_failure_counterexample :
    dispatchCalls toolEnvWeatherFail "q" []
      [{ name := "get_current_temperature", args := { location := "Manila" } },
       { name := "create_zoom_meeting", args := { topic := "standup" } }]
      = .error (JsError.network "weather down") := rfl

/-- Claim C6 (amended): a Zoom token-fetch failure is captured inside
`getToken` (which returns an error-carrying record instead of throwing) and
the Zoom invocation still proceeds with a null token and contributes its tool
result; but a rejected HTTP call inside a handler body — here the weather
fetch — has no surrounding try/catch in the dispatch loop, so it propagates
uncaught, aborting the remaining invocations and the request with no
structured error payload in any tool result. -/
theorem dispatch_failure_policy :
    (∀ (env : ToolEnv) (e : JsError), env.tokenFetch = .error e →
      getToken env = { access_token := none, expires_in := none, error := some e }) ∧
    (∀ (env : ToolEnv) (e : JsError) (query : String) (history : List Content)
      (args : FnArgs) (rest : List FunctionCall) (res : JsValue),
      env.tokenFetch = .error e →
      env.meetingFetch none args = .ok res →
      dispatchCalls env query history
        ({ name := "create_zoom_meeting", args := args } :: rest)
        = Except.map
            (fun tail => Part.functionResponse "create_zoom_meeting" res :: tail)
            (dispatchCalls env query history rest)) ∧
    (∀ (env : ToolEnv) (query : String) (history : List Content)
      (args : FnArgs) (rest : List FunctionCall) (e : JsError),
      env.weatherFetch args.location = .error e →
      dispatchCalls env query history
        ({ name := "get_current_temperature", args := args } :: rest)
        = .error e) := by
  refine ⟨?_, ?_, ?_⟩
  · intro env e he
    unfold getToken
    rw [he]
  · intro env e query history args rest res he hm
    have htok : (getToken env).access_token = none := by
      unfold getToken
      rw [he]
    cases hrest : dispatchCalls env query history rest with
    | error e2 => simp [dispatchCalls, htok, hm, hrest, Except.map]
    | ok tail => simp [dispatchCalls, htok, hm, hrest, Except.map]
  · intro env query history args rest e hw
    simp [dispatchCalls, hw]

/-- Concrete tool environment whose Zoom OAuth token fetch rejects but whose
other calls succeed. -/
def toolEnvTokenFail : ToolEnv :=
  { weatherFetch := fun _ => .ok (JsValue.obj "weather-result")
    tokenFetch := .error (JsError.network "token down")
    meetingFetch := fun _ _ => .ok (JsValue.obj "meeting-result")
    ragChat := fun _ _ => .ok "rag-result" }

/-- Witness for C6 (amended): a failing token fetch is captured by
`getToken`, the Zoom invocation still produces its result, and a failing
weather fetch aborts the dispatch. -/
theorem dispatch_failure_policy_witness :
    (toolEnvTokenFail.tokenFetch = .error (JsError.network "token down") ∧
      getToken toolEnvTokenFail
        = { access_token := none, expires_in := none,
            error := some (JsError.network "token down") }) ∧
    dispatchCalls toolEnvTokenFail "q" [] [{ name := "create_zoom_meeting", args := {} }]
      = Except.map
          (fun tail => Part.functionResponse "create_zoom_meeting"
            (JsValue.obj "meeting-result") :: tail)
          (dispatchCalls toolEnvTokenFail "q" [] []) ∧
    dispatchCalls toolEnvWeatherFail "q" []
      [{ name := "get_current_temperature", args := { location := "M" } }]
      = .error (JsError.network "weather down") :=
  ⟨⟨rfl, dispatch_failure_policy.1 toolEnvTokenFail (JsError.network "token down") rfl⟩,
   dispatch_failure_policy.2.1 toolEnvTokenFail (JsError.network "token down") "q" []
     {} [] (JsValue.obj "meeting-result") rfl rfl,
   dispatch_failure_policy.2.2 toolEnvWeatherFail "q" [] { location := "M" } []
     (JsError.network "weather down") rfl⟩

end ChatAppServer
